import Mathlib

/-!
Shallow embedding of the training-loop arithmetic of `Codeformer_adapt.py`.

Pixel values, gradients and adapter weights are modelled as rationals; image
tensors are flat lists of pixels.  External numerical collaborators (the VAE,
text encoder, UNet, CodeFormer restoration network and the autodiff engine)
enter only through their outputs: the per-step gradient of the loss with
respect to the perturbed images is a parameter of each step, and the AdamW
optimizer update on the adapter weights is an abstract function parameter.
-/

/-- `torch.clamp(x, min := lo, max := hi)`: the lower bound is applied first,
then the upper bound. -/
def clampQ (x lo hi : ℚ) : ℚ := min (max x lo) hi

/-- `torch.sign`: `1` on positives, `-1` on negatives, `0` at zero. -/
def signQ (x : ℚ) : ℚ := if 0 < x then 1 else if x < 0 then -1 else 0

/-- One pixel of the PGD update of `Codeformer_adapt.py` lines 959-961:
`adv = pert + alpha * grad.sign()`, `eta = clamp(adv - orig, -eps, eps)`,
`new = clamp(orig + eta, -1, 1)`. -/
def pgdPixel (alpha eps orig pert grad : ℚ) : ℚ :=
  clampQ (orig + clampQ (pert + alpha * signQ grad - orig) (-eps) eps) (-1) 1

/-- The PGD update applied elementwise over the original images, the current
perturbed images and the gradient tensor. -/
def pgdUpdate (alpha eps : ℚ) : List ℚ → List ℚ → List ℚ → List ℚ
  | o :: os, p :: ps, g :: gs => pgdPixel alpha eps o p g :: pgdUpdate alpha eps os ps gs
  | _, _, _ => []

theorem pgdPixel_bounds (alpha eps o p g : ℚ) (heps : 0 ≤ eps) (ho : |o| ≤ 1) :
    |pgdPixel alpha eps o p g - o| ≤ eps ∧
      -1 ≤ pgdPixel alpha eps o p g ∧ pgdPixel alpha eps o p g ≤ 1 := by
  obtain ⟨ho1, ho2⟩ := abs_le.mp ho
  unfold pgdPixel clampQ
  set a := p + alpha * signQ g - o with ha
  set eta := min (max a (-eps)) eps with heta
  have h1 : -eps ≤ eta := le_min (le_max_right _ _) (by linarith)
  have h2 : eta ≤ eps := min_le_right _ _
  set res := min (max (o + eta) (-1)) 1 with hres
  have hr1 : -1 ≤ res := le_min (le_max_right _ _) (by norm_num)
  have hr2 : res ≤ 1 := min_le_right _ _
  have hr3 : res ≤ o + eps := min_le_of_left_le (max_le (by linarith) (by linarith))
  have hr4 : o - eps ≤ res := le_min (le_trans (by linarith) (le_max_left _ _)) (by linarith)
  exact ⟨abs_le.mpr ⟨by linarith, by linarith⟩, hr1, hr2⟩

theorem pgdUpdate_length (alpha eps : ℚ) (os ps gs : List ℚ) :
    (pgdUpdate alpha eps os ps gs).length = min os.length (min ps.length gs.length) := by
  induction os generalizing ps gs with
  | nil => cases ps <;> cases gs <;> simp [pgdUpdate]
  | cons o os ih =>
    cases ps with
    | nil => simp [pgdUpdate]
    | cons p ps =>
      cases gs with
      | nil => simp [pgdUpdate]
      | cons g gs =>
        simp only [pgdUpdate, List.length_cons, ih]
        omega

theorem pgdUpdate_getElem (alpha eps : ℚ) (os ps gs : List ℚ) (i : ℕ)
    (h : i < (pgdUpdate alpha eps os ps gs).length)
    (ho : i < os.length) (hp : i < ps.length) (hg : i < gs.length) :
    (pgdUpdate alpha eps os ps gs)[i] = pgdPixel alpha eps os[i] ps[i] gs[i] := by
  induction os generalizing ps gs i with
  | nil => simp at ho
  | cons o os ih =>
    cases ps with
    | nil => simp at hp
    | cons p ps =>
      cases gs with
      | nil => simp at hg
      | cons g gs =>
        cases i with
        | zero => rfl
        | succ n =>
          simp only [pgdUpdate, List.getElem_cons_succ]
          exact ih ps gs n (by simpa [pgdUpdate] using h) (by simpa using ho)
            (by simpa using hp) (by simpa using hg)

theorem pgdUpdate_bounds (alpha eps : ℚ) (os ps gs : List ℚ) (heps : 0 ≤ eps)
    (hos : ∀ o ∈ os, |o| ≤ 1) (i : ℕ)
    (h : i < (pgdUpdate alpha eps os ps gs).length) (ho : i < os.length) :
    |(pgdUpdate alpha eps os ps gs)[i] - os[i]| ≤ eps ∧
      -1 ≤ (pgdUpdate alpha eps os ps gs)[i] ∧ (pgdUpdate alpha eps os ps gs)[i] ≤ 1 := by
  have hlen := pgdUpdate_length alpha eps os ps gs
  rw [hlen] at h
  have hp : i < ps.length := by omega
  have hg : i < gs.length := by omega
  have h2 : i < (pgdUpdate alpha eps os ps gs).length := by rw [hlen]; omega
  rw [pgdUpdate_getElem alpha eps os ps gs i h2 ho hp hg]
  exact pgdPixel_bounds alpha eps os[i] ps[i] gs[i] heps (hos _ (os.getElem_mem ho))

/-- The loop-carried state of the training loop of `main`:
the perturbed image tensor, the immutable clone `original_images`
(line 795), the trainable custom-diffusion adapter weights, the weights
of the frozen networks (`vae`, `text_encoder`, `unet` backbone,
lines 645-647), and the loop-carried `mask` tensor built at lines 821-828
(one flat per-image mask per batch entry), which the loop body itself rebinds
(lines 929 and 940). -/
structure TrainState where
  pertubed : List ℚ
  original : List ℚ
  adapters : List ℚ
  vaeWeights : List ℚ
  textEncoderWeights : List ℚ
  unetBackboneWeights : List ℚ
  mask : List (List ℚ)
  deriving DecidableEq

/-- What one loop iteration does to the loop-carried mask: with prior
preservation, line 929 rebinds `mask` to `torch.chunk(mask, 2, dim=0)[0]`,
the first `⌈n/2⌉` images of the batch; without it, line 940 only moves the
tensor to the device, leaving the values unchanged. -/
def maskStep (withPriorPreservation : Bool) (mask : List (List ℚ)) : List (List ℚ) :=
  if withPriorPreservation then mask.take ((mask.length + 1) / 2) else mask

/-- One iteration of the training loop (lines 879-966): the mask rebinding of
line 929 (with prior preservation) or line 940 (without), the PGD update of
the perturbed images (lines 959-961), and `optimizer.step()` over the
custom-diffusion attention layers only (lines 763-769, 963).  `imgGrad` is the
gradient of the loss with respect to `pertubed_images` produced by
`accelerator.backward(loss)`; `optStep` abstracts the AdamW update. -/
def trainStep (alpha eps : ℚ) (wp : Bool) (imgGrad : List ℚ) (optStep : List ℚ → List ℚ)
    (s : TrainState) : TrainState :=
  { s with
    pertubed := pgdUpdate alpha eps s.original s.pertubed imgGrad
    adapters := optStep s.adapters
    mask := maskStep wp s.mask }

/-- The trajectory of training states: the initial state followed by the state
after each training step, one step per entry of `grads`. -/
def runStates (alpha eps : ℚ) (wp : Bool) (optStep : List ℚ → List ℚ) :
    TrainState → List (List ℚ) → List TrainState
  | s, [] => [s]
  | s, g :: gs =>
    s :: runStates alpha eps wp optStep (trainStep alpha eps wp g optStep s) gs

/-- The L-infinity-ball and pixel-range invariant of the spec, elementwise over
the perturbed and original image tensors. -/
def pgdInvariant (eps : ℚ) (s : TrainState) : Prop :=
  ∀ i, (hp : i < s.pertubed.length) → (ho : i < s.original.length) →
    |s.pertubed[i] - s.original[i]| ≤ eps ∧ -1 ≤ s.pertubed[i] ∧ s.pertubed[i] ≤ 1

theorem runStates_length (alpha eps : ℚ) (wp : Bool) (optStep : List ℚ → List ℚ) (s : TrainState)
    (grads : List (List ℚ)) :
    (runStates alpha eps wp optStep s grads).length = grads.length + 1 := by
  induction grads generalizing s with
  | nil => rfl
  | cons g gs ih => simp [runStates, ih]

theorem runStates_getElem_zero (alpha eps : ℚ) (wp : Bool) (optStep : List ℚ → List ℚ) (s : TrainState)
    (grads : List (List ℚ)) (h : 0 < (runStates alpha eps wp optStep s grads).length) :
    (runStates alpha eps wp optStep s grads)[0] = s := by
  cases grads <;> rfl

theorem runStates_frame (alpha eps : ℚ) (wp : Bool) (optStep : List ℚ → List ℚ) (s : TrainState)
    (grads : List (List ℚ)) :
    ∀ s' ∈ runStates alpha eps wp optStep s grads,
      s'.original = s.original ∧ s'.vaeWeights = s.vaeWeights ∧
        s'.textEncoderWeights = s.textEncoderWeights ∧
        s'.unetBackboneWeights = s.unetBackboneWeights := by
  induction grads generalizing s with
  | nil =>
    intro s' hs'
    simp only [runStates, List.mem_singleton] at hs'
    subst hs'
    exact ⟨rfl, rfl, rfl, rfl⟩
  | cons g gs ih =>
    intro s' hs'
    simp only [runStates, List.mem_cons] at hs'
    rcases hs' with rfl | hs'
    · exact ⟨rfl, rfl, rfl, rfl⟩
    · have h := ih (trainStep alpha eps wp g optStep s) s' hs'
      simpa [trainStep] using h

theorem trainStep_invariant (alpha eps : ℚ) (wp : Bool) (g : List ℚ) (optStep : List ℚ → List ℚ)
    (s : TrainState) (heps : 0 ≤ eps) (horig : ∀ o ∈ s.original, |o| ≤ 1) :
    pgdInvariant eps (trainStep alpha eps wp g optStep s) := by
  intro i hp ho
  exact pgdUpdate_bounds alpha eps s.original s.pertubed g heps horig i hp ho

theorem runStates_inv (alpha eps : ℚ) (wp : Bool) (optStep : List ℚ → List ℚ) (grads : List (List ℚ))
    (heps : 0 ≤ eps) :
    ∀ s : TrainState, (∀ o ∈ s.original, |o| ≤ 1) → pgdInvariant eps s →
      ∀ s' ∈ runStates alpha eps wp optStep s grads, pgdInvariant eps s' := by
  induction grads with
  | nil =>
    intro s _ hinv s' hs'
    simp only [runStates, List.mem_singleton] at hs'
    subst hs'
    exact hinv
  | cons g gs ih =>
    intro s hso hinv s' hs'
    simp only [runStates, List.mem_cons] at hs'
    rcases hs' with rfl | hs'
    · exact hinv
    · exact ih (trainStep alpha eps wp g optStep s)
        (by simpa [trainStep] using hso)
        (trainStep_invariant alpha eps wp g optStep s heps hso) s' hs'

/-- C1: after every training step's PGD update, each perturbed pixel differs
from the corresponding original pixel by at most `eps` in absolute value and
lies within the valid pixel range `[-1, 1]`. -/
theorem pgd_perturbation_invariant (alpha eps : ℚ) (wp : Bool) (optStep : List ℚ → List ℚ)
    (s : TrainState) (grads : List (List ℚ)) (heps : 0 ≤ eps)
    (horig : ∀ o ∈ s.original, |o| ≤ 1) :
    ∀ s' ∈ (runStates alpha eps wp optStep s grads).drop 1, pgdInvariant eps s' := by
  cases grads with
  | nil => simp [runStates]
  | cons g gs =>
    intro s' hs'
    simp only [runStates, List.drop_succ_cons, List.drop_zero] at hs'
    exact runStates_inv alpha eps wp optStep gs heps (trainStep alpha eps wp g optStep s)
      (by simpa [trainStep] using horig)
      (trainStep_invariant alpha eps wp g optStep s heps horig) s' hs'

/-- C1 witness: a concrete one-step run where the invariant hypotheses hold. -/
theorem pgd_perturbation_invariant_witness :
    (0 : ℚ) ≤ 1/2 ∧ (∀ o ∈ [(0 : ℚ)], |o| ≤ 1) ∧
      (∀ s' ∈ (runStates 1 (1/2) false id
          (TrainState.mk [2] [0] [5] [] [] [] []) [[1]]).drop 1, pgdInvariant (1/2) s') :=
  ⟨by norm_num, by decide,
    pgd_perturbation_invariant 1 (1/2) false id (TrainState.mk [2] [0] [5] [] [] [] []) [[1]]
      (by norm_num) (by decide)⟩

/-- C3: the per-step update of the perturbed images is exactly a gradient-sign
step followed by clipping into the eps-ball and into the pixel range:
`adv = pert + alpha * sign grad`, `eta = clamp(adv - orig, -eps, eps)`,
`new = clamp(orig + eta, -1, 1)`, elementwise. -/
theorem pgd_step_exact_formula (alpha eps : ℚ) (wp : Bool) (g : List ℚ) (optStep : List ℚ → List ℚ)
    (s : TrainState) (i : ℕ)
    (h : i < ((trainStep alpha eps wp g optStep s).pertubed).length)
    (ho : i < s.original.length) (hp : i < s.pertubed.length) (hg : i < g.length) :
    (trainStep alpha eps wp g optStep s).pertubed[i] =
      clampQ (s.original[i] +
        clampQ (s.pertubed[i] + alpha * signQ g[i] - s.original[i]) (-eps) eps) (-1) 1 := by
  have h2 : i < (pgdUpdate alpha eps s.original s.pertubed g).length := h
  show (pgdUpdate alpha eps s.original s.pertubed g)[i] = _
  rw [pgdUpdate_getElem alpha eps s.original s.pertubed g i h2 ho hp hg]
  rfl

/-- C3 witness: the formula evaluated on a concrete state and gradient. -/
theorem pgd_step_exact_formula_witness :
    (trainStep 1 (1/2) false [1] id (TrainState.mk [0] [0] [5] [] [] [] [])).pertubed[0] =
      clampQ ((0 : ℚ) + clampQ (0 + 1 * signQ 1 - 0) (-(1/2)) (1/2)) (-1) 1 :=
  pgd_step_exact_formula 1 (1/2) false [1] id (TrainState.mk [0] [0] [5] [] [] [] []) 0
    (by decide) (by decide) (by decide) (by decide)

theorem runStates_succ (alpha eps : ℚ) (wp : Bool) (optStep : List ℚ → List ℚ) (s : TrainState)
    (grads : List (List ℚ)) (k : ℕ) (hk : k < grads.length)
    (hk0 : k < (runStates alpha eps wp optStep s grads).length)
    (hk1 : k + 1 < (runStates alpha eps wp optStep s grads).length) :
    (runStates alpha eps wp optStep s grads)[k + 1] =
      trainStep alpha eps wp grads[k] optStep ((runStates alpha eps wp optStep s grads)[k]) := by
  induction grads generalizing s k with
  | nil => simp at hk
  | cons g gs ih =>
    cases k with
    | zero =>
      have h0 : 0 < (runStates alpha eps wp optStep (trainStep alpha eps wp g optStep s) gs).length := by
        rw [runStates_length]
        omega
      show (runStates alpha eps wp optStep (trainStep alpha eps wp g optStep s) gs)[0] = _
      rw [runStates_getElem_zero alpha eps wp optStep (trainStep alpha eps wp g optStep s) gs h0]
      rfl
    | succ n =>
      have hn : n < gs.length := by simpa using hk
      have hn0 : n < (runStates alpha eps wp optStep (trainStep alpha eps wp g optStep s) gs).length := by
        rw [runStates_length]
        omega
      have hn1 : n + 1 <
          (runStates alpha eps wp optStep (trainStep alpha eps wp g optStep s) gs).length := by
        rw [runStates_length]
        omega
      show (runStates alpha eps wp optStep (trainStep alpha eps wp g optStep s) gs)[n + 1] = _
      exact ih (trainStep alpha eps wp g optStep s) n hn hn0 hn1

/-- C4: every iteration of the training loop performs both updates: the state
after step `k` is obtained from the state before it by applying `trainStep`,
whose adapter component is the optimizer step over the custom-diffusion layers
and whose image component is the PGD update; neither update is skipped. -/
theorem every_step_both_updates (alpha eps : ℚ) (wp : Bool) (optStep : List ℚ → List ℚ)
    (s : TrainState) (grads : List (List ℚ)) (k : ℕ) (hk : k < grads.length)
    (hk0 : k < (runStates alpha eps wp optStep s grads).length)
    (hk1 : k + 1 < (runStates alpha eps wp optStep s grads).length) :
    (runStates alpha eps wp optStep s grads)[k + 1] =
        trainStep alpha eps wp grads[k] optStep ((runStates alpha eps wp optStep s grads)[k]) ∧
      ((runStates alpha eps wp optStep s grads)[k + 1]).adapters =
        optStep (((runStates alpha eps wp optStep s grads)[k]).adapters) ∧
      ((runStates alpha eps wp optStep s grads)[k + 1]).pertubed =
        pgdUpdate alpha eps ((runStates alpha eps wp optStep s grads)[k]).original
          ((runStates alpha eps wp optStep s grads)[k]).pertubed grads[k] := by
  have hmain := runStates_succ alpha eps wp optStep s grads k hk hk0 hk1
  refine ⟨hmain, ?_, ?_⟩
  · rw [hmain]
    rfl
  · rw [hmain]
    rfl

/-- C4 witness: both updates happen on the single step of a concrete run. -/
theorem every_step_both_updates_witness :
    (runStates 1 (1/2) false id (TrainState.mk [0] [0] [5] [] [] [] []) [[1]])[0 + 1] =
        trainStep 1 (1/2) false [[(1 : ℚ)]][0] id
          ((runStates 1 (1/2) false id (TrainState.mk [0] [0] [5] [] [] [] []) [[1]])[0]) ∧
      ((runStates 1 (1/2) false id (TrainState.mk [0] [0] [5] [] [] [] []) [[1]])[0 + 1]).adapters =
        id (((runStates 1 (1/2) false id (TrainState.mk [0] [0] [5] [] [] [] []) [[1]])[0]).adapters) ∧
      ((runStates 1 (1/2) false id (TrainState.mk [0] [0] [5] [] [] [] []) [[1]])[0 + 1]).pertubed =
        pgdUpdate 1 (1/2)
          ((runStates 1 (1/2) false id (TrainState.mk [0] [0] [5] [] [] [] []) [[1]])[0]).original
          ((runStates 1 (1/2) false id (TrainState.mk [0] [0] [5] [] [] [] []) [[1]])[0]).pertubed
          [[(1 : ℚ)]][0] :=
  every_step_both_updates 1 (1/2) false id (TrainState.mk [0] [0] [5] [] [] [] []) [[1]] 0
    (by decide) (by decide) (by decide)

theorem runStates_mask_noprior (alpha eps : ℚ) (optStep : List ℚ → List ℚ) (s : TrainState)
    (grads : List (List ℚ)) :
    ∀ s' ∈ runStates alpha eps false optStep s grads, s'.mask = s.mask := by
  induction grads generalizing s with
  | nil =>
    intro s' hs'
    simp only [runStates, List.mem_singleton] at hs'
    subst hs'
    rfl
  | cons g gs ih =>
    intro s' hs'
    simp only [runStates, List.mem_cons] at hs'
    rcases hs' with rfl | hs'
    · rfl
    · have h := ih (trainStep alpha eps false g optStep s) s' hs'
      simpa [trainStep, maskStep] using h

/-- C6 counterexample: under prior preservation a training step also mutates
the loop-carried mask tensor: line 929 rebinds it to its first chunk, so after
one step on a two-image batch the mask differs from the initial one. -/
theorem mask_mutated_under_prior :
    (trainStep 1 (1/2) true [1] id
        (TrainState.mk [0] [0] [5] [] [] [] [[1], [1, 0]])).mask ≠
      (TrainState.mk [0] [0] [5] [] [] [] [[1], [1, 0]] : TrainState).mask := by
  simp [trainStep, maskStep]

/-- C6 amended: throughout training the original image tensor and the frozen
network weights (vae, text encoder, unet backbone) are never changed, and
without prior preservation the loop-carried mask is unchanged as well; a
training step mutates the perturbed image tensor, the adapter weights and,
when prior preservation is on, also the loop-carried mask tensor (line 929
rebinds it to its first chunk). -/
theorem original_and_frozen_unchanged (alpha eps : ℚ) (wp : Bool) (optStep : List ℚ → List ℚ)
    (s : TrainState) (grads : List (List ℚ)) :
    ∀ s' ∈ runStates alpha eps wp optStep s grads,
      s'.original = s.original ∧ s'.vaeWeights = s.vaeWeights ∧
        s'.textEncoderWeights = s.textEncoderWeights ∧
        s'.unetBackboneWeights = s.unetBackboneWeights ∧
        (wp = false → s'.mask = s.mask) := by
  intro s' hs'
  obtain ⟨h1, h2, h3, h4⟩ := runStates_frame alpha eps wp optStep s grads s' hs'
  refine ⟨h1, h2, h3, h4, fun hwp => ?_⟩
  subst hwp
  exact runStates_mask_noprior alpha eps optStep s grads s' hs'

/-- C6 witness: the post-step state of a concrete run without prior
preservation keeps the original images, the frozen weights and the mask of
the initial state. -/
theorem original_and_frozen_unchanged_witness :
    trainStep 1 (1/2) false [1] id (TrainState.mk [2] [0] [5] [6] [7] [8] [[1]]) ∈
        runStates 1 (1/2) false id (TrainState.mk [2] [0] [5] [6] [7] [8] [[1]]) [[1]] ∧
      ((trainStep 1 (1/2) false [1] id
            (TrainState.mk [2] [0] [5] [6] [7] [8] [[1]])).original =
          (TrainState.mk [2] [0] [5] [6] [7] [8] [[1]] : TrainState).original ∧
        (trainStep 1 (1/2) false [1] id
            (TrainState.mk [2] [0] [5] [6] [7] [8] [[1]])).vaeWeights =
          (TrainState.mk [2] [0] [5] [6] [7] [8] [[1]] : TrainState).vaeWeights ∧
        (trainStep 1 (1/2) false [1] id
            (TrainState.mk [2] [0] [5] [6] [7] [8] [[1]])).textEncoderWeights =
          (TrainState.mk [2] [0] [5] [6] [7] [8] [[1]] : TrainState).textEncoderWeights ∧
        (trainStep 1 (1/2) false [1] id
            (TrainState.mk [2] [0] [5] [6] [7] [8] [[1]])).unetBackboneWeights =
          (TrainState.mk [2] [0] [5] [6] [7] [8] [[1]] : TrainState).unetBackboneWeights ∧
        (false = false →
          (trainStep 1 (1/2) false [1] id
              (TrainState.mk [2] [0] [5] [6] [7] [8] [[1]])).mask =
            (TrainState.mk [2] [0] [5] [6] [7] [8] [[1]] : TrainState).mask)) :=
  ⟨by simp [runStates],
    original_and_frozen_unchanged 1 (1/2) false id
      (TrainState.mk [2] [0] [5] [6] [7] [8] [[1]]) [[1]]
      (trainStep 1 (1/2) false [1] id (TrainState.mk [2] [0] [5] [6] [7] [8] [[1]]))
      (by simp [runStates])⟩

/-- Elementwise squared error of one image, `F.mse_loss(pred, target,
reduction := "none")` (lines 931, 941). -/
def sqErr (pred target : List ℚ) : List ℚ :=
  List.zipWith (fun a b => (a - b) * (a - b)) pred target

/-- Mean of a tensor flattened to a list, `Tensor.mean()`. -/
def meanQ (l : List ℚ) : ℚ := l.sum / (l.length : ℚ)

/-- Three-list zip used to pair predictions, targets and masks imagewise. -/
def zipWith3 {α β γ δ : Type} (f : α → β → γ → δ) : List α → List β → List γ → List δ
  | a :: as, b :: bs, c :: cs => f a b c :: zipWith3 f as bs cs
  | _, _, _ => []

/-- Per-image term of line 932: `(loss * mask).sum([1,2,3]) / mask.sum([1,2,3])`. -/
def imageMaskedLoss (pred target m : List ℚ) : ℚ :=
  (List.zipWith (fun x y => x * y) (sqErr pred target) m).sum / m.sum

/-- The instance loss of the `with_prior_preservation` branch (lines 931-932):
the per-image masked normalized sums, averaged over the batch. -/
def instanceLossPrior (preds targets masks : List (List ℚ)) : ℚ :=
  meanQ (zipWith3 imageMaskedLoss preds targets masks)

/-- The prior loss of line 935: plain mean squared error over all elements. -/
def priorLoss (predsPrior targetsPrior : List (List ℚ)) : ℚ :=
  meanQ (List.zipWith sqErr predsPrior targetsPrior).flatten

/-- The loss of the `with_prior_preservation` branch (lines 925-938):
`model_pred` and `target` are chunked in two along the batch dimension
(`torch.chunk(-, 2, dim := 0)` puts the first `⌈n/2⌉` images in the first
chunk), the mask is chunked likewise, and the masked instance loss is added to
`prior_loss_weight` times the unmasked prior loss. -/
def lossWithPrior (priorWeight : ℚ) (preds targets masks : List (List ℚ)) : ℚ :=
  instanceLossPrior (preds.take ((preds.length + 1) / 2))
      (targets.take ((targets.length + 1) / 2)) (masks.take ((masks.length + 1) / 2)) +
    priorWeight * priorLoss (preds.drop ((preds.length + 1) / 2))
      (targets.drop ((targets.length + 1) / 2))

/-- The loss of the branch without prior preservation (lines 940-944): the
masked reduction is commented out and the loss is the plain mean of the
elementwise squared errors; the mask is not used. -/
def lossNoPrior (preds targets : List (List ℚ)) : ℚ :=
  meanQ (List.zipWith sqErr preds targets).flatten

/-- Modelled from the spec words for the masked denoising loss: the per-element
MSE between prediction and target is multiplied elementwise by the per-image
mask, summed, and normalized by the mask sum. -/
def specMaskedImageLoss (pred target m : List ℚ) : ℚ :=
  (zipWith3 (fun a b mv => (a - b) * (a - b) * mv) pred target m).sum / m.sum

/-- The spec's masked loss averaged over the images of the batch. -/
def specMaskedLoss (preds targets masks : List (List ℚ)) : ℚ :=
  meanQ (zipWith3 specMaskedImageLoss preds targets masks)

theorem zipWith_mul_sqErr (pred target m : List ℚ) :
    List.zipWith (fun x y => x * y) (sqErr pred target) m =
      zipWith3 (fun a b mv => (a - b) * (a - b) * mv) pred target m := by
  induction pred generalizing target m with
  | nil => cases target <;> cases m <;> simp [sqErr, zipWith3]
  | cons a as ih =>
    cases target with
    | nil => simp [sqErr, zipWith3]
    | cons b bs =>
      cases m with
      | nil => simp [sqErr, zipWith3]
      | cons mv ms =>
        simp only [sqErr, List.zipWith_cons_cons, zipWith3]
        congr 1
        simpa [sqErr] using ih bs ms

theorem imageMaskedLoss_eq_spec (pred target m : List ℚ) :
    imageMaskedLoss pred target m = specMaskedImageLoss pred target m := by
  unfold imageMaskedLoss specMaskedImageLoss
  rw [zipWith_mul_sqErr]

theorem zipWith3_congr {α β γ δ : Type} (f g : α → β → γ → δ)
    (h : ∀ a b c, f a b c = g a b c) (as : List α) (bs : List β) (cs : List γ) :
    zipWith3 f as bs cs = zipWith3 g as bs cs := by
  induction as generalizing bs cs with
  | nil => cases bs <;> cases cs <;> simp [zipWith3]
  | cons a as ih =>
    cases bs with
    | nil => simp [zipWith3]
    | cons b bs =>
      cases cs with
      | nil => simp [zipWith3]
      | cons c cs => simp [zipWith3, h, ih]

/-- C2 counterexample: in the branch without prior preservation the loss the
code back-propagates is the unmasked mean, which differs from the spec's
masked loss at a concrete input. -/
theorem lossNoPrior_not_masked_at_input :
    lossNoPrior [[1, 0]] [[0, 0]] ≠ specMaskedLoss [[1, 0]] [[0, 0]] [[0, 1]] := by
  have h1 : lossNoPrior [[1, 0]] [[0, 0]] = 1 / 2 := by
    simp [lossNoPrior, sqErr, meanQ]
  have h2 : specMaskedLoss [[1, 0]] [[0, 0]] [[0, 1]] = 0 := by
    simp [specMaskedLoss, specMaskedImageLoss, zipWith3, meanQ]
  rw [h1, h2]
  norm_num

/-- C2 amended: the masked weighting of the spec is applied to the instance
part of the `with_prior_preservation` branch, while the branch without prior
preservation reduces the unmasked per-element MSE by a plain mean. -/
theorem loss_masking_per_branch (priorWeight : ℚ) (preds targets masks : List (List ℚ)) :
    instanceLossPrior preds targets masks = specMaskedLoss preds targets masks ∧
      lossWithPrior priorWeight preds targets masks =
        specMaskedLoss (preds.take ((preds.length + 1) / 2))
            (targets.take ((targets.length + 1) / 2)) (masks.take ((masks.length + 1) / 2)) +
          priorWeight * priorLoss (preds.drop ((preds.length + 1) / 2))
            (targets.drop ((targets.length + 1) / 2)) ∧
      lossNoPrior preds targets = meanQ (List.zipWith sqErr preds targets).flatten := by
  have key : ∀ ps ts ms : List (List ℚ),
      instanceLossPrior ps ts ms = specMaskedLoss ps ts ms := by
    intro ps ts ms
    unfold instanceLossPrior specMaskedLoss
    rw [zipWith3_congr imageMaskedLoss specMaskedImageLoss imageMaskedLoss_eq_spec]
  refine ⟨key preds targets masks, ?_, rfl⟩
  unfold lossWithPrior
  rw [key]

/-- Resolution of one endpoint of a Python (numpy) slice over a dimension of
size `d`: a negative index counts from the end, then the result is clipped to
`[0, d]`. -/
def pySliceIdx (d : ℕ) (i : ℤ) : ℕ :=
  (max 0 (min (if i < 0 then i + d else i) (d : ℤ))).toNat

theorem pySliceIdx_of_nonneg (d : ℕ) (x : ℤ) (hx : 0 ≤ x) :
    pySliceIdx d x = min x.toNat d := by
  unfold pySliceIdx
  rw [if_neg (by omega)]
  omega

/-- The mask built by `CustomDiffusionDataset.preprocess` (lines 151-170) at
row `r`, column `c`.  `factor = size // mask_size`; for `scale > size` the
mask is all ones, otherwise zeros with the numpy slice
`mask[top//factor + 1 : (top+scale)//factor - 1,
left//factor + 1 : (left+scale)//factor - 1]` set to one; the stop index is
computed in Python integers, so it can be `-1` and then counts from the end of
the `size//factor`-sized dimension. -/
def maskEntry (size mask_size scale top left r c : ℕ) : ℚ :=
  let factor := size / mask_size
  let d := size / factor
  if size < scale then 1
  else if (pySliceIdx d ((top / factor : ℕ) + 1 : ℤ) ≤ r ∧
            r < pySliceIdx d (((top + scale) / factor : ℕ) - 1 : ℤ)) ∧
          (pySliceIdx d ((left / factor : ℕ) + 1 : ℤ) ≤ c ∧
            c < pySliceIdx d (((left + scale) / factor : ℕ) - 1 : ℤ))
       then 1 else 0

/-- Modelled from the claim's words: ones exactly on the mathematical interior
`[top//factor + 1, (top+scale)//factor - 1) x
[left//factor + 1, (left+scale)//factor - 1)` (an empty set when the stop
bound is below the start bound), and all ones when `scale > size`. -/
def claimMaskEntry (size mask_size scale top left r c : ℕ) : ℚ :=
  let factor := size / mask_size
  if size < scale then 1
  else if (((top / factor : ℕ) + 1 : ℤ) ≤ (r : ℤ) ∧
            (r : ℤ) < (((top + scale) / factor : ℕ) - 1 : ℤ)) ∧
          (((left / factor : ℕ) + 1 : ℤ) ≤ (c : ℤ) ∧
            (c : ℤ) < (((left + scale) / factor : ℕ) - 1 : ℤ))
       then 1 else 0

/-- The instance image built by `preprocess` at row `r`, column `c`, channel
`ch`, as a function of the resized input image `img`: for `scale <= size` the
resized image is pasted on a zero canvas at offset `(top, left)`; for
`scale > size` a `size x size` crop at offset `(top, left)` is taken. -/
def instanceImageEntry (size scale top left : ℕ) (img : ℕ → ℕ → ℕ → ℚ)
    (r c ch : ℕ) : ℚ :=
  if size < scale then img (top + r) (left + c) ch
  else if top ≤ r ∧ r < top + scale ∧ left ≤ c ∧ c < left + scale then
    img (r - top) (c - left) ch
  else 0

/-- The mask returned by `get_one_mask` (lines 806-819): the `preprocess` mask,
to which an all-ones `class_mask` is added when `with_prior_preservation` is
set (`one_mask += class_mask`). -/
def getOneMaskEntry (withPriorPreservation : Bool)
    (size mask_size scale top left r c : ℕ) : ℚ :=
  if withPriorPreservation then maskEntry size mask_size scale top left r c + 1
  else maskEntry size mask_size scale top left r c

theorem maskEntry_binary (size mask_size scale top left r c : ℕ) :
    maskEntry size mask_size scale top left r c = 0 ∨
      maskEntry size mask_size scale top left r c = 1 := by
  simp only [maskEntry]
  split
  · exact Or.inr rfl
  · split
    · exact Or.inr rfl
    · exact Or.inl rfl

/-- C5 counterexample: with prior preservation on, `get_one_mask` produces the
value `2` (not binary) at a concrete input: `size = 8`, `mask_size = 4`,
`scale = 8`, `top = left = 0`, mask position `(1, 1)`. -/
theorem getOneMask_prior_not_binary :
    ¬(getOneMaskEntry true 8 4 8 0 0 1 1 = 0 ∨ getOneMaskEntry true 8 4 8 0 0 1 1 = 1) := by
  have h : getOneMaskEntry true 8 4 8 0 0 1 1 = 2 := by
    norm_num [getOneMaskEntry, maskEntry, pySliceIdx]
  rw [h]
  norm_num

/-- C5 amended: every `preprocess` mask element is 0 or 1; `get_one_mask`
returns the `preprocess` mask unchanged without prior preservation, and with
prior preservation every element is 1 or 2 (the binary mask plus the all-ones
class mask). -/
theorem mask_values (size mask_size scale top left r c : ℕ) :
    (maskEntry size mask_size scale top left r c = 0 ∨
        maskEntry size mask_size scale top left r c = 1) ∧
      getOneMaskEntry false size mask_size scale top left r c =
        maskEntry size mask_size scale top left r c ∧
      (getOneMaskEntry true size mask_size scale top left r c = 1 ∨
        getOneMaskEntry true size mask_size scale top left r c = 2) := by
  refine ⟨maskEntry_binary size mask_size scale top left r c, rfl, ?_⟩
  unfold getOneMaskEntry
  rcases maskEntry_binary size mask_size scale top left r c with h | h <;> rw [h] <;> norm_num

theorem slice_interval_key (dd A B x : ℕ) (hB : 1 ≤ B) (hx : x < dd) :
    ((pySliceIdx dd ((A : ℤ) + 1) ≤ x ∧ x < pySliceIdx dd ((B : ℤ) - 1)) ↔
      ((A : ℤ) + 1 ≤ (x : ℤ) ∧ (x : ℤ) < (B : ℤ) - 1)) := by
  rw [pySliceIdx_of_nonneg dd _ (by omega), pySliceIdx_of_nonneg dd _ (by omega)]
  omega

/-- C8 counterexample: at `size = 8`, `mask_size = 4`, `scale = 1`,
`top = left = 0` the numpy stop index `(top+scale)//factor - 1` equals `-1`,
which counts from the end of the dimension, so `preprocess` places a one at
mask position `(1, 1)` even though the claimed interior interval is empty. -/
theorem preprocess_mask_tiny_scale :
    maskEntry 8 4 1 0 0 1 1 = 1 ∧ claimMaskEntry 8 4 1 0 0 1 1 = 0 := by
  constructor
  · norm_num [maskEntry, pySliceIdx]
  · norm_num [claimMaskEntry]

/-- C8 amended: the `preprocess` characterization holds with the mask clause
restricted to scales of at least `size // mask_size` (for smaller scales the
numpy stop index becomes negative and wraps to the end of the dimension).
For `scale > size` the instance image is the `(top, left)` crop of the resized
image and the mask is all ones; for `size // mask_size <= scale <= size` the
instance image is the resized image pasted at `(top, left)` on a zero canvas
(zero outside `[top, top+scale) x [left, left+scale)`) and the mask is one
exactly on the interior
`[top//factor + 1, (top+scale)//factor - 1) x
[left//factor + 1, (left+scale)//factor - 1)`. -/
theorem preprocess_characterization (size mask_size scale top left : ℕ)
    (img : ℕ → ℕ → ℕ → ℚ) (i j ch r c : ℕ)
    (hms : 0 < mask_size) (hmsle : mask_size ≤ size)
    (hr : r < size / (size / mask_size)) (hc : c < size / (size / mask_size)) :
    (size < scale →
      instanceImageEntry size scale top left img i j ch = img (top + i) (left + j) ch ∧
        maskEntry size mask_size scale top left r c = 1) ∧
      (scale ≤ size → size / mask_size ≤ scale →
        instanceImageEntry size scale top left img i j ch =
            (if top ≤ i ∧ i < top + scale ∧ left ≤ j ∧ j < left + scale then
              img (i - top) (j - left) ch
            else 0) ∧
          maskEntry size mask_size scale top left r c =
            claimMaskEntry size mask_size scale top left r c) := by
  have hfac : 0 < size / mask_size := Nat.div_pos hmsle hms
  constructor
  · intro hss
    constructor
    · simp [instanceImageEntry, hss]
    · simp [maskEntry, hss]
  · intro hss hfs
    have hB : 1 ≤ (top + scale) / (size / mask_size) :=
      (Nat.one_le_div_iff hfac).mpr (le_trans hfs (Nat.le_add_left _ _))
    have hB2 : 1 ≤ (left + scale) / (size / mask_size) :=
      (Nat.one_le_div_iff hfac).mpr (le_trans hfs (Nat.le_add_left _ _))
    constructor
    · simp only [instanceImageEntry, if_neg (not_lt.mpr hss)]
    · simp only [maskEntry, claimMaskEntry]
      rw [if_neg (not_lt.mpr hss), if_neg (not_lt.mpr hss)]
      exact if_congr (and_congr (slice_interval_key _ _ _ r hB hr)
        (slice_interval_key _ _ _ c hB2 hc)) rfl rfl

/-- C8 witness: the characterization instantiated on concrete parameters. -/
theorem preprocess_characterization_witness :
    0 < 4 ∧ 4 ≤ 8 ∧ 2 < 8 / (8 / 4) ∧ 1 < 8 / (8 / 4) ∧
      ((8 < 4 →
        instanceImageEntry 8 4 1 0 (fun a b d => (a + b + d : ℚ)) 3 2 0 =
            ((1 + 3 : ℕ) : ℚ) + ((0 + 2 : ℕ) : ℚ) + ((0 : ℕ) : ℚ) ∧
          maskEntry 8 4 4 1 0 2 1 = 1) ∧
        (4 ≤ 8 → 8 / 4 ≤ 4 →
          instanceImageEntry 8 4 1 0 (fun a b d => (a + b + d : ℚ)) 3 2 0 =
              (if 1 ≤ 3 ∧ 3 < 1 + 4 ∧ 0 ≤ 2 ∧ 2 < 0 + 4 then
                ((3 - 1 : ℕ) : ℚ) + ((2 - 0 : ℕ) : ℚ) + ((0 : ℕ) : ℚ)
              else 0) ∧
            maskEntry 8 4 4 1 0 2 1 = claimMaskEntry 8 4 4 1 0 2 1)) :=
  ⟨by decide, by decide, by decide, by decide,
    preprocess_characterization 8 4 4 1 0 (fun a b d => (a + b + d : ℚ)) 3 2 0 2 1
      (by decide) (by decide) (by decide) (by decide)⟩

/-- The checkpointing behaviour of the training loop (lines 969-986): the
`Accelerator` is constructed without gradient accumulation (lines 522-526), so
`accelerator.sync_gradients` holds on every iteration; each iteration
increments `global_step` and then saves the perturbed images exactly when
`global_step % checkpointing_steps == 0` and the process is the main process.
`ckptTrace ck isMain n g` lists, for `n` iterations starting from counter `g`,
the pair of the post-increment `global_step` and whether a save happened. -/
def ckptTrace (checkpointingSteps : ℕ) (isMainProcess : Bool) : ℕ → ℕ → List (ℕ × Bool)
  | 0, _ => []
  | n + 1, g =>
    (g + 1, ((g + 1) % checkpointingSteps == 0) && isMainProcess) ::
      ckptTrace checkpointingSteps isMainProcess n (g + 1)

theorem ckptTrace_spec (ck : ℕ) (isMain : Bool) (hck : 0 < ck) :
    ∀ n g, ∀ p ∈ ckptTrace ck isMain n g,
      (p.2 = true ↔ 0 < p.1 ∧ ck ∣ p.1 ∧ isMain = true) := by
  intro n
  induction n with
  | zero =>
    intro g p hp
    simp [ckptTrace] at hp
  | succ m ih =>
    intro g p hp
    simp only [ckptTrace, List.mem_cons] at hp
    rcases hp with rfl | hp
    · simp only [Bool.and_eq_true, beq_iff_eq]
      constructor
      · rintro ⟨hmod, hmain⟩
        exact ⟨Nat.succ_pos g, Nat.dvd_of_mod_eq_zero hmod, hmain⟩
      · rintro ⟨-, hdvd, hmain⟩
        exact ⟨Nat.dvd_iff_mod_eq_zero.mp hdvd, hmain⟩
    · exact ih (g + 1) p hp

/-- C7: starting from `global_step = 0`, a save of the perturbed images occurs
on a training step exactly when the incremented global step is a (necessarily
positive) multiple of `checkpointing_steps` and the process is the main
process; on every other step nothing is persisted. -/
theorem checkpoint_saves_iff (ck n : ℕ) (isMain : Bool) (hck : 0 < ck) :
    ∀ p ∈ ckptTrace ck isMain n 0, (p.2 = true ↔ 0 < p.1 ∧ ck ∣ p.1 ∧ isMain = true) :=
  ckptTrace_spec ck isMain hck n 0

/-- C7 witness: the save pattern of a concrete three-step run with
checkpointing every two steps. -/
theorem checkpoint_saves_iff_witness :
    0 < 2 ∧ (∀ p ∈ ckptTrace 2 true 3 0, (p.2 = true ↔ 0 < p.1 ∧ 2 ∣ p.1 ∧ true = true)) :=
  ⟨by decide, checkpoint_saves_iff 2 3 true (by decide)⟩

/-- Python `index % n`: raises `ZeroDivisionError` when `n = 0`, so the access
is modelled as an `Option`. -/
def pyMod (a n : ℕ) : Option ℕ := if n = 0 then none else some (a % n)

/-- `CustomDiffusionDataset.__len__` (lines 135, 148-149):
`max(num_class_images, num_instance_images)`. -/
def datasetLength (numClassImages numInstanceImages : ℕ) : ℕ :=
  max numClassImages numInstanceImages

/-- The index into `instance_images_path` used by `__getitem__` (line 174). -/
def getitemInstanceIndex (index numInstanceImages : ℕ) : Option ℕ :=
  pyMod index numInstanceImages

/-- The index into `class_images_path` used by `__getitem__` when prior
preservation is on (line 206). -/
def getitemClassIndex (index numClassImages : ℕ) : Option ℕ :=
  pyMod index numClassImages

/-- C9: `__len__` is the maximum of the class and instance image counts, and
for any index, with at least one instance image present, the modulo-indexing
of `__getitem__` stays in bounds of the instance list, and whenever the class
modulo-indexing produces an index it is in bounds of the class list. -/
theorem getitem_index_safe (numClassImages numInstanceImages index : ℕ)
    (hinst : 1 ≤ numInstanceImages)
    (hidx : index < datasetLength numClassImages numInstanceImages) :
    datasetLength numClassImages numInstanceImages =
        max numClassImages numInstanceImages ∧
      (∃ k, getitemInstanceIndex index numInstanceImages = some k ∧
        k < numInstanceImages) ∧
      (∀ k, getitemClassIndex index numClassImages = some k → k < numClassImages) := by
  have hne : numInstanceImages ≠ 0 := by omega
  refine ⟨rfl, ⟨index % numInstanceImages, ?_, Nat.mod_lt index hinst⟩, ?_⟩
  · simp [getitemInstanceIndex, pyMod, hne]
  · intro k hk
    unfold getitemClassIndex pyMod at hk
    by_cases h0 : numClassImages = 0
    · simp [h0] at hk
    · rw [if_neg h0] at hk
      obtain rfl := Option.some_injective _ hk.symm
      exact Nat.mod_lt index (Nat.pos_of_ne_zero h0)

/-- C9 witness: a concrete dataset with two instance images and no class
images, accessed at index 1. -/
theorem getitem_index_safe_witness :
    1 ≤ 2 ∧ 1 < datasetLength 0 2 ∧
      (datasetLength 0 2 = max 0 2 ∧
        (∃ k, getitemInstanceIndex 1 2 = some k ∧ k < 2) ∧
        (∀ k, getitemClassIndex 1 0 = some k → k < 0)) :=
  ⟨by decide, by decide, getitem_index_safe 0 2 1 (by decide) (by decide)⟩

/-- The outcome of the validation at the end of `parse_args`
(lines 501-512). -/
inductive ParseCheck where
  | ok (warnings : List String)
  | valueError (msg : String)
  deriving DecidableEq

/-- The validation logic of `parse_args` (lines 501-512): with
`--with_prior_preservation` and no concepts list, a missing class data
directory or class prompt raises `ValueError`; without it, supplying either
only emits a warning. -/
def validateArgs (withPriorPreservation : Bool)
    (conceptsList classDataDir classPrompt : Option String) : ParseCheck :=
  if withPriorPreservation then
    if conceptsList = none then
      if classDataDir = none then
        ParseCheck.valueError "You must specify a data directory for class images."
      else if classPrompt = none then
        ParseCheck.valueError "You must specify prompt for class images."
      else ParseCheck.ok []
    else ParseCheck.ok []
  else
    ParseCheck.ok
      ((if classDataDir ≠ none then
          ["You need not use --class_data_dir without --with_prior_preservation."]
        else []) ++
        (if classPrompt ≠ none then
          ["You need not use --class_prompt without --with_prior_preservation."]
        else []))

/-- C10: `parse_args` raises `ValueError` exactly when prior preservation is
requested, no concepts list is given, and the class data directory or the
class prompt is missing; without prior preservation the check always succeeds,
with a nonempty warning list exactly when a class data directory or class
prompt was supplied. -/
theorem parse_args_validation (w : Bool) (cl cdd cp : Option String) :
    ((∃ msg, validateArgs w cl cdd cp = ParseCheck.valueError msg) ↔
        (w = true ∧ cl = none ∧ (cdd = none ∨ cp = none))) ∧
      (w = false → ∃ ws, validateArgs w cl cdd cp = ParseCheck.ok ws ∧
        (ws ≠ [] ↔ (cdd ≠ none ∨ cp ≠ none))) := by
  constructor
  · constructor
    · rintro ⟨msg, hmsg⟩
      unfold validateArgs at hmsg
      by_cases hw : w
      · rw [if_pos hw] at hmsg
        by_cases hcl : cl = none
        · rw [if_pos hcl] at hmsg
          by_cases hcdd : cdd = none
          · exact ⟨hw, hcl, Or.inl hcdd⟩
          · rw [if_neg hcdd] at hmsg
            by_cases hcp : cp = none
            · exact ⟨hw, hcl, Or.inr hcp⟩
            · rw [if_neg hcp] at hmsg
              exact absurd hmsg (by simp)
        · rw [if_neg hcl] at hmsg
          exact absurd hmsg (by simp)
      · rw [if_neg hw] at hmsg
        exact absurd hmsg (by simp)
    · rintro ⟨hw, hcl, hmiss⟩
      unfold validateArgs
      rw [if_pos hw, if_pos hcl]
      rcases hmiss with hcdd | hcp
      · rw [if_pos hcdd]
        exact ⟨_, rfl⟩
      · by_cases hcdd : cdd = none
        · rw [if_pos hcdd]
          exact ⟨_, rfl⟩
        · rw [if_neg hcdd, if_pos hcp]
          exact ⟨_, rfl⟩
  · intro hw
    subst hw
    refine ⟨(if cdd ≠ none then
        ["You need not use --class_data_dir without --with_prior_preservation."]
      else []) ++
        (if cp ≠ none then
          ["You need not use --class_prompt without --with_prior_preservation."]
        else []), ?_, ?_⟩
    · unfold validateArgs
      rw [if_neg (by simp)]
    · by_cases hcdd : cdd = none <;> by_cases hcp : cp = none <;>
        simp [hcdd, hcp]

/-- C10 witness: with prior preservation, no concepts list, no class data
directory but a class prompt, validation raises; without prior preservation
and with a class prompt supplied, it succeeds with a warning. -/
theorem parse_args_validation_witness :
    (∃ msg, validateArgs true none none (some "p") = ParseCheck.valueError msg) ∧
      (∃ ws, validateArgs false none none (some "p") = ParseCheck.ok ws ∧
        (ws ≠ [] ↔ ((none : Option String) ≠ none ∨ (some "p" : Option String) ≠ none))) :=
  ⟨(parse_args_validation true none none (some "p")).1.mpr ⟨rfl, rfl, Or.inl rfl⟩,
    (parse_args_validation false none none (some "p")).2 rfl⟩
